import Mathlib

/-!
Verification development for the streaming dispatch core
(src/stream/src/executor/dispatch.rs) and the stream aggregation
statelessness predicate (src/frontend/src/optimizer/plan_node/generic/agg.rs).

The Rust code is shallowly embedded: dispatchers become Lean structures over
lists, the per-row loop of HashDataDispatcher::dispatch_data becomes an
explicit state-passing recursion, sends become result lists, and every panic
site (unwrap, assert) becomes an Option.
-/

set_option autoImplicit false

namespace RW

/-- Actor identifiers (u32 in the source). -/
abbrev ActorId := Nat

/-- Dispatcher identifiers (u64 in the source, equal to the downstream fragment id). -/
abbrev DispatcherId := Nat

/-- Scalar cell values of a chunk; integers suffice for the dispatch logic,
which only hashes and projects them. -/
abbrev Value := Int

/-- Row operation of a stream chunk (risingwave_common::array::Op). -/
inductive Op where
  | insert
  | delete
  | updateDelete
  | updateInsert
deriving DecidableEq, Repr

/-- A stream chunk: per-row ops, a visibility bitmap and row data
(the source stores columns; a row-major view is equivalent for dispatch,
which only projects columns and hashes key columns). -/
structure StreamChunk where
  ops : List Op
  vis : List Bool
  rows : List (List Value)
deriving DecidableEq, Repr

/-- Number of virtual nodes, VirtualNode::COUNT (256 in this build). -/
def vnodeCount : Nat := 256

/-- Projection of one row to the given column indices
(StreamChunk::project restricted to one row). -/
def projectRow (indices : List Nat) (r : List Value) : List Value :=
  indices.map (fun i => r.getD i 0)

/-- Modelled from the spec: VirtualNode::compute_chunk (risingwave_common,
not under src/) hashes the key columns of each row (CRC32 per the spec) and
reduces the result modulo the vnode count. The hash itself is abstracted as
the parameter h. -/
def computeVnodes (h : List Value → Nat) (keys : List Nat) (rows : List (List Value)) : List Nat :=
  rows.map (fun r => h (projectRow keys r) % vnodeCount)

/-- Per-row information consumed by the dispatch loop of
HashDataDispatcher::dispatch_data: the row's vnode, op and visibility. -/
structure RowInfo where
  vnode : Nat
  op : Op
  visible : Bool
deriving DecidableEq, Repr

/-- Zip of vnodes, ops and visibility, mirroring the zip_eq_fast iterators of
the dispatch loop (the source asserts equal lengths; theorems carry length
hypotheses instead). -/
def mkInfos : List Nat → List Op → List Bool → List RowInfo
  | v :: vs, o :: os, b :: bs => ⟨v, o, b⟩ :: mkInfos vs os bs
  | _, _, _ => []

/-- State of the op-rewrite loop: last_vnode_when_update_delete and the
accumulated new_ops vector. -/
structure RewriteState where
  lastVnode : Option Nat
  newOps : List Op
deriving DecidableEq, Repr

/-- One iteration of the op-rewrite part of HashDataDispatcher::dispatch_data
(dispatch.rs lines 703-724). Invisible rows push their op unchanged and skip
the rest; a visible UpdateDelete records its vnode and pushes nothing; a
visible UpdateInsert unwraps the recorded vnode (none models the panic) and
pushes the pair, split into Delete/Insert when the vnodes differ; other ops
are pushed unchanged. -/
def rewriteStep (st : RewriteState) (r : RowInfo) : Option RewriteState :=
  if r.visible = false then
    some ⟨st.lastVnode, st.newOps ++ [r.op]⟩
  else if r.op = Op.updateDelete then
    some ⟨some r.vnode, st.newOps⟩
  else if r.op = Op.updateInsert then
    match st.lastVnode with
    | none => none
    | some v =>
      if r.vnode ≠ v then
        some ⟨some v, st.newOps ++ [Op.delete, Op.insert]⟩
      else
        some ⟨some v, st.newOps ++ [Op.updateDelete, Op.updateInsert]⟩
  else
    some ⟨st.lastVnode, st.newOps ++ [r.op]⟩

/-- The whole op-rewrite loop over the rows of a chunk. -/
def rewriteOps : List RowInfo → RewriteState → Option RewriteState
  | [], st => some st
  | r :: rest, st => (rewriteStep st r).bind (rewriteOps rest)

/-- Visibility bitmap built for one output: row i is visible there iff it was
originally visible and the hash mapping sends its vnode to that output's
actor (dispatch.rs line 700). -/
def hashVisMap (mapping : List ActorId) (actor : ActorId) (infos : List RowInfo) : List Bool :=
  infos.map (fun r => r.visible && decide (mapping.getD r.vnode 0 = actor))

/-- HashDataDispatcher (dispatch.rs lines 609-618); outputs are identified by
their downstream actor id. -/
structure HashDataDispatcher where
  outputs : List ActorId
  keys : List Nat
  outputIndices : List Nat
  hashMapping : List ActorId
  dispatcherId : DispatcherId
deriving DecidableEq, Repr

/-- Cardinality of a chunk: its number of visible rows. -/
def chunkCardinality (vis : List Bool) : Nat := vis.count true

/-- The per-row records of a chunk as seen by the hash dispatch loop. -/
def hashInfos (h : List Value → Nat) (d : HashDataDispatcher) (c : StreamChunk) : List RowInfo :=
  mkInfos (computeVnodes h d.keys c.rows) c.ops c.vis

/-- HashDataDispatcher::dispatch_data (dispatch.rs lines 672-746): compute
vnodes from the key columns, build one visibility bitmap per output, rewrite
the op stream, project the columns, and send to each output the resulting
chunk when its cardinality is positive (none in the result list means nothing
is sent to that output). The outer none models the panic of the UpdateInsert
unwrap. -/
def hashDispatchData (h : List Value → Nat) (d : HashDataDispatcher) (c : StreamChunk) :
    Option (List (Option StreamChunk)) :=
  match rewriteOps (hashInfos h d c) ⟨none, []⟩ with
  | none => none
  | some st =>
      some (d.outputs.map (fun a =>
        let vm := hashVisMap d.hashMapping a (hashInfos h d c)
        if 0 < chunkCardinality vm then
          some ⟨st.newOps, vm, c.rows.map (projectRow d.outputIndices)⟩
        else
          none))

/-- Visibility of row i as observed at one output: false when no chunk was
sent there, otherwise the chunk's bitmap at i. -/
def sentVisAt (oc : Option StreamChunk) (i : Nat) : Bool :=
  match oc with
  | none => false
  | some ch => ch.vis.getD i false

/-- Well-formed row sequences: a concatenation of non-update rows and of
update pairs (UpdateDelete immediately followed by UpdateInsert, §3 of the
spec), where the two halves of a pair share their visibility. -/
inductive WFRows : List RowInfo → Prop
  | nil : WFRows []
  | single {r : RowInfo} {rest : List RowInfo} :
      r.op ≠ Op.updateDelete → r.op ≠ Op.updateInsert → WFRows rest → WFRows (r :: rest)
  | pair {r1 r2 : RowInfo} {rest : List RowInfo} :
      r1.op = Op.updateDelete → r2.op = Op.updateInsert → r1.visible = r2.visible →
      WFRows rest → WFRows (r1 :: r2 :: rest)

/-- Ops the rewrite loop emits for one update pair: an invisible pair passes
through unchanged; a visible pair is kept when the two vnodes coincide and is
split into Delete/Insert otherwise (the loop compares the UpdateInsert's
vnode with the recorded one). -/
def pairOps (r1 r2 : RowInfo) : List Op :=
  if r1.visible = false then [r1.op, r2.op]
  else if r2.vnode ≠ r1.vnode then [Op.delete, Op.insert]
  else [Op.updateDelete, Op.updateInsert]

/-- Rewritten op stream of a well-formed row sequence, unit by unit. -/
def wfRewrite : List RowInfo → List Op
  | [] => []
  | [r] => [r.op]
  | r1 :: r2 :: rest =>
      if r1.op = Op.updateDelete then pairOps r1 r2 ++ wfRewrite rest
      else r1.op :: wfRewrite (r2 :: rest)

/-! Dispatcher variants (dispatch.rs lines 344-1060). Outputs are identified
by the downstream actor id they address. -/

/-- BroadcastDispatcher (dispatch.rs lines 767-797); the source keys the
outputs by actor id in a HashMap, so duplicates collapse. -/
structure BroadcastDispatcher where
  outputs : List ActorId
  outputIndices : List Nat
  dispatcherId : DispatcherId
deriving DecidableEq, Repr

/-- SimpleDispatcher (dispatch.rs lines 969-1004): one output in steady
state, transiently 0 or 2 during configuration change. -/
structure SimpleDispatcher where
  output : List ActorId
  outputIndices : List Nat
  dispatcherId : DispatcherId
deriving DecidableEq, Repr

/-- RoundRobinDataDispatcher (dispatch.rs lines 533-556). -/
structure RoundRobinDataDispatcher where
  outputs : List ActorId
  outputIndices : List Nat
  cur : Nat
  dispatcherId : DispatcherId
deriving DecidableEq, Repr

/-- CdcTableNameDispatcher (dispatch.rs lines 848-877). -/
structure CdcTableNameDispatcher where
  outputs : List ActorId
  tableNameColIndex : Nat
  outputIndices : List Nat
  dispatcherId : DispatcherId
  downstreamTableName : Option String
deriving DecidableEq, Repr

/-- The tagged dispatcher variant (dispatch.rs lines 344-351). -/
inductive DispatcherImpl where
  | hash : HashDataDispatcher → DispatcherImpl
  | broadcast : BroadcastDispatcher → DispatcherImpl
  | simple : SimpleDispatcher → DispatcherImpl
  | roundRobin : RoundRobinDataDispatcher → DispatcherImpl
  | cdcTableName : CdcTableNameDispatcher → DispatcherImpl
deriving DecidableEq, Repr

/-- Mutation attached to a barrier (the fields the dispatch executor reads;
merges, vnode bitmaps and splits are out of scope). The other constructor
stands for the mutation kinds both phases ignore (Pause, Resume, ...). -/
inductive DispatcherType where
  | hash
  | broadcast
  | simple
  | noShuffle
  | cdcTablename
  | unspecified
deriving DecidableEq, Repr

/-- PbDispatcher spec as read by DispatcherImpl::new; the hash mapping is
carried already expanded (ActorMapping::from_protobuf(..).to_expanded() is in
risingwave_common, not under src/). -/
structure PbDispatcher where
  type : DispatcherType
  dispatcherId : DispatcherId
  downstreamActorId : List ActorId
  distKeyIndices : List Nat
  outputIndices : List Nat
  hashMapping : Option (List ActorId)
  downstreamTableName : Option String
deriving DecidableEq, Repr

/-- PbDispatcherUpdate as read by pre/post_update_dispatcher; the hash
mapping is carried already expanded. -/
structure PbDispatcherUpdate where
  dispatcherId : DispatcherId
  addedDownstreamActorId : List ActorId
  removedDownstreamActorId : List ActorId
  hashMapping : Option (List ActorId)
deriving DecidableEq, Repr

inductive Mutation where
  | stop (actors : List ActorId)
  | add (adds : List (ActorId × List PbDispatcher))
  | update (dispatchers : List (ActorId × List PbDispatcherUpdate))
      (droppedActors : List ActorId)
      (actorNewDispatchers : List (ActorId × List PbDispatcher))
  | other
deriving DecidableEq, Repr

/-- Barrier: an epoch plus an optional mutation. -/
structure Barrier where
  epoch : Nat
  mutation : Option Mutation
deriving DecidableEq, Repr

/-- The output set of a dispatcher (each variant's outputs field). -/
def DispatcherImpl.outputActors : DispatcherImpl → List ActorId
  | .hash d => d.outputs
  | .broadcast d => d.outputs
  | .simple d => d.output
  | .roundRobin d => d.outputs
  | .cdcTableName d => d.outputs

def DispatcherImpl.dispatcherId : DispatcherImpl → DispatcherId
  | .hash d => d.dispatcherId
  | .broadcast d => d.dispatcherId
  | .simple d => d.dispatcherId
  | .roundRobin d => d.dispatcherId
  | .cdcTableName d => d.dispatcherId

/-- Dispatcher::is_empty, per variant. -/
def DispatcherImpl.isEmpty : DispatcherImpl → Bool
  | .hash d => d.outputs.isEmpty
  | .broadcast d => d.outputs.isEmpty
  | .simple d => d.output.isEmpty
  | .roundRobin d => d.outputs.isEmpty
  | .cdcTableName d => d.outputs.isEmpty

/-- Insertion into the broadcast output map: keyed by actor id, an existing
key is overwritten (value and key coincide here). -/
def broadcastInsert (l : List ActorId) (a : ActorId) : List ActorId :=
  if a ∈ l then l else l ++ [a]

/-- SimpleDispatcher::add_outputs: extend, then assert at most 2 outputs
(none models the assertion failure). -/
def simpleAddOutputs (d : SimpleDispatcher) (outs : List ActorId) : Option SimpleDispatcher :=
  let o := d.output ++ outs
  if o.length ≤ 2 then some { d with output := o } else none

/-- Dispatcher::add_outputs per variant. -/
def DispatcherImpl.addOutputs : DispatcherImpl → List ActorId → Option DispatcherImpl
  | .hash d, outs => some (.hash { d with outputs := d.outputs ++ outs })
  | .broadcast d, outs => some (.broadcast { d with outputs := outs.foldl broadcastInsert d.outputs })
  | .simple d, outs => (simpleAddOutputs d outs).map DispatcherImpl.simple
  | .roundRobin d, outs => some (.roundRobin { d with outputs := d.outputs ++ outs })
  | .cdcTableName d, outs => some (.cdcTableName { d with outputs := d.outputs ++ outs })

/-- Dispatcher::remove_outputs per variant: drop the outputs whose actor id
is in the set. RoundRobin additionally clamps its cursor (Nat subtraction
saturates where the source would underflow on an empty output list). -/
def DispatcherImpl.removeOutputs : DispatcherImpl → List ActorId → DispatcherImpl
  | .hash d, ids => .hash { d with outputs := d.outputs.filter (fun x => decide (x ∉ ids)) }
  | .broadcast d, ids => .broadcast { d with outputs := d.outputs.filter (fun x => decide (x ∉ ids)) }
  | .simple d, ids => .simple { d with output := d.output.filter (fun x => decide (x ∉ ids)) }
  | .roundRobin d, ids =>
      let outs := d.outputs.filter (fun x => decide (x ∉ ids))
      .roundRobin { d with outputs := outs, cur := min d.cur (outs.length - 1) }
  | .cdcTableName d, ids => .cdcTableName { d with outputs := d.outputs.filter (fun x => decide (x ∉ ids)) }

/-- SimpleDispatcher::dispatch_barrier: send to each current output. -/
def simpleDispatchBarrier (d : SimpleDispatcher) (b : Barrier) : List (ActorId × Barrier) :=
  d.output.map (fun a => (a, b))

/-- Dispatcher::dispatch_barrier per variant: each one loops over its current
outputs and sends the barrier to every one of them. -/
def DispatcherImpl.dispatchBarrierSends : DispatcherImpl → Barrier → List (ActorId × Barrier)
  | .hash d, b => d.outputs.map (fun a => (a, b))
  | .broadcast d, b => d.outputs.map (fun a => (a, b))
  | .simple d, b => simpleDispatchBarrier d b
  | .roundRobin d, b => d.outputs.map (fun a => (a, b))
  | .cdcTableName d, b => d.outputs.map (fun a => (a, b))

/-- Chunk projection through output_indices (ops and visibility unchanged). -/
def projectChunk (indices : List Nat) (c : StreamChunk) : StreamChunk :=
  ⟨c.ops, c.vis, c.rows.map (projectRow indices)⟩

/-- SimpleDispatcher::dispatch_data: require exactly one output (none models
the expect of exactly_one) and send the projected chunk to it. -/
def simpleDispatchData (d : SimpleDispatcher) (c : StreamChunk) : Option (ActorId × StreamChunk) :=
  match d.output with
  | [a] => some (a, projectChunk d.outputIndices c)
  | _ => none

/-- DispatcherImpl::new (dispatch.rs lines 354-432): build a dispatcher from
its protobuf spec; none models the assertions (non-empty outputs for Hash and
CdcTableName, a single table-name column, exactly one output for Simple) and
the missing-mapping error for Hash. new_output is modelled as resolving each
downstream actor id. -/
def DispatcherImpl.new (_actorId : ActorId) (pb : PbDispatcher) : Option DispatcherImpl :=
  match pb.type with
  | .hash =>
      if pb.downstreamActorId.isEmpty then none
      else
        match pb.hashMapping with
        | none => none
        | some m => some (.hash ⟨pb.downstreamActorId, pb.distKeyIndices, pb.outputIndices, m,
            pb.dispatcherId⟩)
  | .cdcTablename =>
      if pb.downstreamActorId.isEmpty then none
      else if pb.downstreamTableName.isNone then none
      else if pb.distKeyIndices.length ≠ 1 then none
      else some (.cdcTableName ⟨pb.downstreamActorId, pb.distKeyIndices.headD 0, pb.outputIndices,
        pb.dispatcherId, pb.downstreamTableName⟩)
  | .broadcast => some (.broadcast ⟨pb.downstreamActorId.foldl broadcastInsert [],
      pb.outputIndices, pb.dispatcherId⟩)
  | .simple =>
      if pb.downstreamActorId.length = 1 then
        some (.simple ⟨pb.downstreamActorId, pb.outputIndices, pb.dispatcherId⟩)
      else none
  | .noShuffle =>
      if pb.downstreamActorId.length = 1 then
        some (.simple ⟨pb.downstreamActorId, pb.outputIndices, pb.dispatcherId⟩)
      else none
  | .unspecified => none

/-! The dispatch executor (dispatch.rs lines 52-283). -/

structure DispatchExecutorInner where
  dispatchers : List DispatcherImpl
  actorId : ActorId
deriving DecidableEq, Repr

/-- Lookup in a protobuf map field, keyed by actor id. -/
def lookupActor {α : Type} (m : List (ActorId × α)) (a : ActorId) : Option α :=
  (m.find? (fun p => decide (p.1 = a))).map Prod.snd

/-- Fallible construction of every dispatcher in a list of specs
(the try_collect in add_dispatchers). -/
def newAll (a : ActorId) : List PbDispatcher → Option (List DispatcherImpl)
  | [] => some []
  | pb :: rest => (DispatcherImpl.new a pb).bind (fun d => (newAll a rest).map (fun ds => d :: ds))

/-- DispatchExecutorInner::add_dispatchers: build each new dispatcher, append
them, then assert that all dispatcher ids are unique (none models the
assertion failure and construction errors). -/
def addDispatchers (s : DispatchExecutorInner) (specs : List PbDispatcher) :
    Option DispatchExecutorInner :=
  match newAll s.actorId specs with
  | none => none
  | some nds =>
      let ds := s.dispatchers ++ nds
      if (ds.map DispatcherImpl.dispatcherId).Nodup then some { s with dispatchers := ds }
      else none

/-- Apply a fallible modification to the first dispatcher satisfying p;
none when no dispatcher matches (find_dispatcher panics there). -/
def updateFirst (p : DispatcherImpl → Bool) (f : DispatcherImpl → Option DispatcherImpl) :
    List DispatcherImpl → Option (List DispatcherImpl)
  | [] => none
  | d :: rest =>
      if p d then (f d).map (fun d2 => d2 :: rest)
      else (updateFirst p f rest).map (fun r => d :: r)

/-- DispatchExecutorInner::pre_update_dispatcher: resolve the added outputs
and add them to the named dispatcher. Nothing else changes. -/
def preUpdateDispatcher (s : DispatchExecutorInner) (u : PbDispatcherUpdate) :
    Option DispatchExecutorInner :=
  (updateFirst (fun d => decide (d.dispatcherId = u.dispatcherId))
      (fun d => d.addOutputs u.addedDownstreamActorId) s.dispatchers).map
    (fun ds => { s with dispatchers := ds })

/-- DispatchExecutorInner::post_update_dispatcher: remove the removed outputs
from the named dispatcher, then, for a Hash dispatcher only, replace its hash
mapping with the one carried by the update (none when the update carries no
mapping, modelling get_hash_mapping()?). -/
def postUpdateDispatcher (s : DispatchExecutorInner) (u : PbDispatcherUpdate) :
    Option DispatchExecutorInner :=
  (updateFirst (fun d => decide (d.dispatcherId = u.dispatcherId))
      (fun d =>
        match d.removeOutputs u.removedDownstreamActorId with
        | .hash hd =>
            match u.hashMapping with
            | none => none
            | some m => some (.hash { hd with hashMapping := m })
        | d2 => some d2) s.dispatchers).map
    (fun ds => { s with dispatchers := ds })

/-- Sequential application of per-dispatcher updates. -/
def applyAll (f : DispatchExecutorInner → PbDispatcherUpdate → Option DispatchExecutorInner) :
    DispatchExecutorInner → List PbDispatcherUpdate → Option DispatchExecutorInner
  | s, [] => some s
  | s, u :: us => (f s u).bind (fun s2 => applyAll f s2 us)

/-- DispatchExecutorInner::pre_mutate_dispatchers: for Add, create the
dispatchers listed for this actor; for Update, first create this actor's new
dispatchers, then add the added outputs of each listed update. Stop and the
other mutations do nothing here. -/
def preMutateDispatchers (s : DispatchExecutorInner) :
    Option Mutation → Option DispatchExecutorInner
  | none => some s
  | some (.add adds) =>
      match lookupActor adds s.actorId with
      | some specs => addDispatchers s specs
      | none => some s
  | some (.update dispatchers _ actorNewDispatchers) =>
      let step1 :=
        match lookupActor actorNewDispatchers s.actorId with
        | some specs => addDispatchers s specs
        | none => some s
      step1.bind (fun s1 =>
        match lookupActor dispatchers s1.actorId with
        | some us => applyAll preUpdateDispatcher s1 us
        | none => some s1)
  | some (.stop _) => some s
  | some .other => some s

/-- Mutation part of DispatchExecutorInner::post_mutate_dispatchers: for
Stop, remove the stopped outputs from every dispatcher unless this actor is
itself stopped; for Update, apply each listed update, then remove the dropped
actors from every dispatcher unless this actor is itself dropped. -/
def postMutateCore (s : DispatchExecutorInner) : Mutation → Option DispatchExecutorInner
  | .stop stops =>
      some (if s.actorId ∈ stops then s
            else { s with dispatchers := s.dispatchers.map (fun d => d.removeOutputs stops) })
  | .update dispatchers droppedActors _ =>
      let step1 :=
        match lookupActor dispatchers s.actorId with
        | some us => applyAll postUpdateDispatcher s us
        | none => some s
      step1.map (fun s2 =>
        if s2.actorId ∈ droppedActors then s2
        else { s2 with dispatchers := s2.dispatchers.map (fun d => d.removeOutputs droppedActors) })
  | _ => some s

/-- DispatchExecutorInner::post_mutate_dispatchers: with no mutation, return
unchanged; otherwise run the mutation part, then sweep every dispatcher whose
output set became empty. -/
def postMutateDispatchers (s : DispatchExecutorInner) :
    Option Mutation → Option DispatchExecutorInner
  | none => some s
  | some mu =>
      (postMutateCore s mu).map (fun s1 =>
        { s1 with dispatchers := s1.dispatchers.filter (fun d => !d.isEmpty) })

/-- Barrier handling in DispatchExecutorInner::dispatch (lines 119-135):
pre-mutate, dispatch the barrier through every dispatcher, post-mutate. The
result carries the final state and the barrier sends, which are computed from
the state as it is after the pre phase. -/
def processBarrier (s : DispatchExecutorInner) (b : Barrier) :
    Option (DispatchExecutorInner × List (ActorId × Barrier)) :=
  (preMutateDispatchers s b.mutation).bind (fun s1 =>
    let sends := (s1.dispatchers.map (fun d => d.dispatchBarrierSends b)).flatten
    (postMutateDispatchers s1 b.mutation).map (fun s2 => (s2, sends)))

/-- Well-formedness of a dispatcher as maintained by the source: the
round-robin cursor stays within the output list. -/
def DispatcherWF : DispatcherImpl → Prop
  | .roundRobin rr => rr.cur < rr.outputs.length
  | _ => True

/-! Aggregation statelessness predicate
(src/frontend/src/optimizer/plan_node/generic/agg.rs lines 124-131). -/

/-- Aggregate kinds (a representative subset of AggKind). -/
inductive AggKind where
  | count
  | sum
  | min
  | max
  | stringAgg
deriving DecidableEq, Repr

/-- An aggregate call; only the kind matters to the statelessness check. -/
structure PlanAggCall where
  aggKind : AggKind
deriving DecidableEq, Repr

/-- Modelled from the spec: the agg_kinds::single_value_state kind class lives
in risingwave_expr, not under src/. Spec §4.6: value state (no state table) is
used for simple scalar states, Count and Sum-like kinds. -/
def singleValueState : AggKind → Bool
  | .count => true
  | .sum => true
  | _ => false

/-- Modelled from the spec: the agg_kinds::single_value_state_iff_in_append_only
kind class lives in risingwave_expr, not under src/. Spec §4.6 lists Min/Max among
the calls needing a materialized-input state table for retraction-safe
computation, hence a single-value state only on append-only input (matching
the in_append_only arm of infer_stream_agg_state in agg.rs). -/
def singleValueStateIffInAppendOnly : AggKind → Bool
  | .min => true
  | .max => true
  | _ => false

/-- The aggregation plan node (the field the statelessness check reads). -/
structure Agg where
  aggCalls : List PlanAggCall
deriving DecidableEq, Repr

/-- Agg::all_local_aggs_are_stateless (agg.rs lines 124-131): every call is
single-value state, or is single-value state iff append-only while the stream
input is append-only. -/
def allLocalAggsAreStateless (a : Agg) (streamInputAppendOnly : Bool) : Bool :=
  a.aggCalls.all (fun c =>
    singleValueState c.aggKind ||
      (singleValueStateIffInAppendOnly c.aggKind && streamInputAppendOnly))

/-! Concrete fixtures used by counterexamples and witnesses. -/

/-- A concrete hash for examples: the first key value, as a natural number. -/
def exHash : List Value → Nat := fun r => (r.headD 0).toNat

/-- Two outputs, two mapped vnodes, key and projection on column 0. -/
def exDisp : HashDataDispatcher := ⟨[1, 2], [0], [0], [1, 2], 7⟩

/-- Two visible inserted rows with keys 0 and 1 (vnodes 0 and 1). -/
def exChunk : StreamChunk := ⟨[Op.insert, Op.insert], [true, true], [[0], [1]]⟩

/-- One output; both vnodes 0 and 1 are mapped to the same actor 1. -/
def exDispSame : HashDataDispatcher := ⟨[1], [0], [0], [1, 1], 7⟩

/-- A visible update pair whose rows have vnodes 0 and 1. -/
def exChunkPair : StreamChunk :=
  ⟨[Op.updateDelete, Op.updateInsert], [true, true], [[0], [1]]⟩

/-! General list helpers. -/

theorem getD_map_lt {α β : Type} (f : α → β) (l : List α) (i : Nat) (hi : i < l.length)
    (d : β) (d2 : α) : (l.map f).getD i d = f (l.getD i d2) := by
  rw [List.getD_eq_getElem?_getD, List.getElem?_map, List.getElem?_eq_getElem hi,
    List.getD_eq_getElem?_getD, List.getElem?_eq_getElem hi]
  rfl

/-! Behaviour of the op-rewrite loop. -/

theorem rewriteOps_cons (r : RowInfo) (rest : List RowInfo) (st : RewriteState) :
    rewriteOps (r :: rest) st = (rewriteStep st r).bind (rewriteOps rest) := rfl

theorem rewriteOps_append (l1 l2 : List RowInfo) (st : RewriteState) :
    rewriteOps (l1 ++ l2) st = (rewriteOps l1 st).bind (rewriteOps l2) := by
  induction l1 generalizing st with
  | nil => simp [rewriteOps]
  | cons r rest ih =>
      simp only [List.cons_append, rewriteOps_cons]
      cases rewriteStep st r with
      | none => simp
      | some st2 => simp [ih st2]

/-- An invisible row pushes its op unchanged and leaves the recorded vnode
untouched. -/
theorem rewriteStep_invisible {st : RewriteState} {r : RowInfo} (h : r.visible = false) :
    rewriteStep st r = some ⟨st.lastVnode, st.newOps ++ [r.op]⟩ := by
  simp [rewriteStep, h]

/-- A visible non-update row pushes its op unchanged. -/
theorem rewriteStep_visible_other {st : RewriteState} {r : RowInfo} (hv : r.visible = true)
    (h1 : r.op ≠ Op.updateDelete) (h2 : r.op ≠ Op.updateInsert) :
    rewriteStep st r = some ⟨st.lastVnode, st.newOps ++ [r.op]⟩ := by
  simp [rewriteStep, hv, h1, h2]

/-- A visible UpdateDelete records its vnode and pushes nothing. -/
theorem rewriteStep_visible_ud {st : RewriteState} {r : RowInfo} (hv : r.visible = true)
    (h : r.op = Op.updateDelete) :
    rewriteStep st r = some ⟨some r.vnode, st.newOps⟩ := by
  simp [rewriteStep, hv, h]

/-- A visible UpdateInsert compares its vnode with the recorded one and
pushes the rewritten pair. -/
theorem rewriteStep_visible_ui {st : RewriteState} {r : RowInfo} {v : Nat}
    (hv : r.visible = true) (h : r.op = Op.updateInsert) (hl : st.lastVnode = some v) :
    rewriteStep st r =
      some ⟨some v, st.newOps ++
        (if r.vnode ≠ v then [Op.delete, Op.insert]
         else [Op.updateDelete, Op.updateInsert])⟩ := by
  by_cases hne : r.vnode ≠ v <;> simp [rewriteStep, hv, h, hl, hne]

/-- The loop only ever appends to new_ops. -/
theorem rewriteStep_newOps {st : RewriteState} {r : RowInfo} {st2 : RewriteState}
    (h : rewriteStep st r = some st2) : ∃ t, st2.newOps = st.newOps ++ t := by
  unfold rewriteStep at h
  split at h
  · exact ⟨[r.op], by cases h; rfl⟩
  · split at h
    · exact ⟨[], by cases h; simp⟩
    · split at h
      · split at h
        · cases h
        · split at h
          · exact ⟨[Op.delete, Op.insert], by cases h; rfl⟩
          · exact ⟨[Op.updateDelete, Op.updateInsert], by cases h; rfl⟩
      · exact ⟨[r.op], by cases h; rfl⟩

theorem rewriteOps_newOps {l : List RowInfo} {st st2 : RewriteState}
    (h : rewriteOps l st = some st2) : ∃ t, st2.newOps = st.newOps ++ t := by
  induction l generalizing st with
  | nil => exact ⟨[], by cases h; simp⟩
  | cons r rest ih =>
      rw [rewriteOps_cons] at h
      cases hs : rewriteStep st r with
      | none => rw [hs] at h; cases h
      | some stm =>
          rw [hs] at h
          obtain ⟨t1, ht1⟩ := rewriteStep_newOps hs
          obtain ⟨t2, ht2⟩ := ih h
          exact ⟨t1 ++ t2, by rw [ht2, ht1, List.append_assoc]⟩

/-! The rewrite of well-formed row sequences. -/

theorem wfRewrite_cons_single {r : RowInfo} (rest : List RowInfo)
    (h : r.op ≠ Op.updateDelete) : wfRewrite (r :: rest) = r.op :: wfRewrite rest := by
  cases rest with
  | nil => simp [wfRewrite]
  | cons r2 rest2 => simp [wfRewrite, h]

theorem wfRewrite_cons_pair {r1 : RowInfo} (r2 : RowInfo) (rest : List RowInfo)
    (h : r1.op = Op.updateDelete) :
    wfRewrite (r1 :: r2 :: rest) = pairOps r1 r2 ++ wfRewrite rest := by
  simp [wfRewrite, h]

theorem pairOps_length (r1 r2 : RowInfo) : (pairOps r1 r2).length = 2 := by
  unfold pairOps
  split
  · rfl
  · split <;> rfl

theorem wfRewrite_length {l : List RowInfo} (hw : WFRows l) :
    (wfRewrite l).length = l.length := by
  induction hw with
  | nil => rfl
  | @single r rest h1 _ _ ih => rw [wfRewrite_cons_single rest h1]; simp [ih]
  | @pair r1 r2 rest h1 _ _ _ ih =>
      rw [wfRewrite_cons_pair r2 rest h1]
      simp [pairOps_length, ih]
      omega

/-- On a well-formed row sequence the loop never panics and appends exactly
the unit-by-unit rewrite to new_ops, from any starting state. -/
theorem rewriteOps_wf {l : List RowInfo} (hw : WFRows l) (st : RewriteState) :
    ∃ v, rewriteOps l st = some ⟨v, st.newOps ++ wfRewrite l⟩ := by
  induction hw generalizing st with
  | nil => exact ⟨st.lastVnode, by simp [rewriteOps, wfRewrite]⟩
  | @single r rest h1 h2 _ ih =>
      have hstep : rewriteStep st r = some ⟨st.lastVnode, st.newOps ++ [r.op]⟩ := by
        cases hv : r.visible with
        | false => exact rewriteStep_invisible hv
        | true => exact rewriteStep_visible_other hv h1 h2
      obtain ⟨v, hrest⟩ := ih ⟨st.lastVnode, st.newOps ++ [r.op]⟩
      refine ⟨v, ?_⟩
      rw [rewriteOps_cons, hstep, Option.some_bind, hrest,
        wfRewrite_cons_single rest h1]
      simp
  | @pair r1 r2 rest h1 h2 hvv _ ih =>
      cases hv1 : r1.visible with
      | false =>
          have hv2 : r2.visible = false := by rw [← hvv, hv1]
          have hstep1 : rewriteStep st r1 = some ⟨st.lastVnode, st.newOps ++ [r1.op]⟩ :=
            rewriteStep_invisible hv1
          have hstep2 : rewriteStep ⟨st.lastVnode, st.newOps ++ [r1.op]⟩ r2 =
              some ⟨st.lastVnode, (st.newOps ++ [r1.op]) ++ [r2.op]⟩ :=
            rewriteStep_invisible hv2
          obtain ⟨v, hrest⟩ := ih ⟨st.lastVnode, (st.newOps ++ [r1.op]) ++ [r2.op]⟩
          refine ⟨v, ?_⟩
          rw [rewriteOps_cons, hstep1, Option.some_bind, rewriteOps_cons, hstep2,
            Option.some_bind, hrest, wfRewrite_cons_pair r2 rest h1]
          simp [pairOps, hv1]
      | true =>
          have hv2 : r2.visible = true := by rw [← hvv, hv1]
          have hstep1 : rewriteStep st r1 = some ⟨some r1.vnode, st.newOps⟩ :=
            rewriteStep_visible_ud hv1 h1
          have hstep2 : rewriteStep ⟨some r1.vnode, st.newOps⟩ r2 =
              some ⟨some r1.vnode, st.newOps ++
                (if r2.vnode ≠ r1.vnode then [Op.delete, Op.insert]
                 else [Op.updateDelete, Op.updateInsert])⟩ :=
            rewriteStep_visible_ui hv2 h2 rfl
          obtain ⟨v, hrest⟩ := ih ⟨some r1.vnode, st.newOps ++
            (if r2.vnode ≠ r1.vnode then [Op.delete, Op.insert]
             else [Op.updateDelete, Op.updateInsert])⟩
          refine ⟨v, ?_⟩
          rw [rewriteOps_cons, hstep1, Option.some_bind, rewriteOps_cons, hstep2,
            Option.some_bind, hrest, wfRewrite_cons_pair r2 rest h1]
          have : pairOps r1 r2 =
              (if r2.vnode ≠ r1.vnode then [Op.delete, Op.insert]
               else [Op.updateDelete, Op.updateInsert]) := by
            simp [pairOps, hv1]
          rw [this, List.append_assoc]

/-! Row records of a chunk. -/

theorem mkInfos_length (vs : List Nat) (os : List Op) (bs : List Bool) :
    (mkInfos vs os bs).length = min vs.length (min os.length bs.length) := by
  induction vs generalizing os bs with
  | nil => cases os <;> cases bs <;> simp [mkInfos]
  | cons v vs ih =>
      cases os with
      | nil => simp [mkInfos]
      | cons o os =>
          cases bs with
          | nil => simp [mkInfos]
          | cons b bs =>
              simp [mkInfos, ih]
              omega

theorem mkInfos_getElem? (vs : List Nat) (os : List Op) (bs : List Bool) (i : Nat)
    (h1 : i < vs.length) (h2 : i < os.length) (h3 : i < bs.length) :
    (mkInfos vs os bs)[i]? = some ⟨vs.getD i 0, os.getD i Op.insert, bs.getD i false⟩ := by
  induction vs generalizing os bs i with
  | nil => simp at h1
  | cons v vs ih =>
      cases os with
      | nil => simp at h2
      | cons o os =>
          cases bs with
          | nil => simp at h3
          | cons b bs =>
              cases i with
              | zero => simp [mkInfos]
              | succ n =>
                  simp only [mkInfos, List.getElem?_cons_succ, List.getD_cons_succ]
                  exact ih os bs n (by simpa using h1) (by simpa using h2) (by simpa using h3)

theorem hashVisMap_getElem? (mapping : List ActorId) (a : ActorId) (infos : List RowInfo)
    (i : Nat) :
    (hashVisMap mapping a infos)[i]? =
      (infos[i]?).map (fun r => r.visible && decide (mapping.getD r.vnode 0 = a)) :=
  List.getElem?_map _ infos i

theorem hashVisMap_length (mapping : List ActorId) (a : ActorId) (infos : List RowInfo) :
    (hashVisMap mapping a infos).length = infos.length := by
  simp [hashVisMap]

theorem hashInfos_length (h : List Value → Nat) (d : HashDataDispatcher) (c : StreamChunk)
    (hops : c.ops.length = c.rows.length) (hvis : c.vis.length = c.rows.length) :
    (hashInfos h d c).length = c.rows.length := by
  simp [hashInfos, mkInfos_length, computeVnodes, hops, hvis]

theorem hashInfos_getElem? (h : List Value → Nat) (d : HashDataDispatcher) (c : StreamChunk)
    (i : Nat) (hops : c.ops.length = c.rows.length) (hvis : c.vis.length = c.rows.length)
    (hi : i < c.rows.length) :
    (hashInfos h d c)[i]? =
      some ⟨h (projectRow d.keys (c.rows.getD i [])) % vnodeCount,
        c.ops.getD i Op.insert, c.vis.getD i false⟩ := by
  have hv : (computeVnodes h d.keys c.rows).length = c.rows.length := by
    simp [computeVnodes]
  rw [hashInfos, mkInfos_getElem? _ _ _ i (by omega) (by omega) (by omega)]
  rw [computeVnodes, getD_map_lt _ _ i hi 0 []]

/-- The value hashDispatchData produces once the rewrite loop has finished. -/
theorem hashDispatchData_eq (h : List Value → Nat) (d : HashDataDispatcher) (c : StreamChunk)
    (st : RewriteState) (hrw : rewriteOps (hashInfos h d c) ⟨none, []⟩ = some st) :
    hashDispatchData h d c = some (d.outputs.map (fun a =>
      let vm := hashVisMap d.hashMapping a (hashInfos h d c)
      if 0 < chunkCardinality vm then
        some ⟨st.newOps, vm, c.rows.map (projectRow d.outputIndices)⟩
      else none)) := by
  unfold hashDispatchData
  rw [hrw]

/-- Claim C1: for every chunk dispatched by a Hash dispatcher, the chunk an
output receives marks row i visible iff the row was originally visible and
the hash mapping sends the row's vnode (the hash of its key projection,
reduced modulo the vnode count) to that output's actor; in particular, an
output whose actor does not own the vnode observes the row as invisible (or
receives no chunk at all). -/
theorem hash_visibility_correct (h : List Value → Nat) (d : HashDataDispatcher)
    (c : StreamChunk) (o i : Nat) (outs : List (Option StreamChunk))
    (hops : c.ops.length = c.rows.length) (hvis : c.vis.length = c.rows.length)
    (ho : o < d.outputs.length) (hi : i < c.rows.length)
    (hd : hashDispatchData h d c = some outs) :
    sentVisAt (outs.getD o none) i =
      (c.vis.getD i false &&
        decide (d.hashMapping.getD (h (projectRow d.keys (c.rows.getD i [])) % vnodeCount) 0
          = d.outputs.getD o 0)) := by
  have hlen : (hashInfos h d c).length = c.rows.length := hashInfos_length h d c hops hvis
  unfold hashDispatchData at hd
  cases hrw : rewriteOps (hashInfos h d c) ⟨none, []⟩ with
  | none => rw [hrw] at hd; cases hd
  | some st =>
      rw [hrw] at hd
      injection hd with hd
      subst hd
      have haeq : d.outputs.getD o 0 = d.outputs[o] := by
        rw [List.getD_eq_getElem?_getD, List.getElem?_eq_getElem ho]
        rfl
      have houts :
          (d.outputs.map (fun a =>
            let vm := hashVisMap d.hashMapping a (hashInfos h d c)
            if 0 < chunkCardinality vm then
              some ⟨st.newOps, vm, c.rows.map (projectRow d.outputIndices)⟩
            else none)).getD o none =
          (let vm := hashVisMap d.hashMapping (d.outputs[o]) (hashInfos h d c)
           if 0 < chunkCardinality vm then
             some (StreamChunk.mk st.newOps vm (c.rows.map (projectRow d.outputIndices)))
           else none) := by
        rw [List.getD_eq_getElem?_getD, List.getElem?_map, List.getElem?_eq_getElem ho]
        rfl
      rw [houts]
      have hvmi : (hashVisMap d.hashMapping (d.outputs[o]) (hashInfos h d c)).getD i false =
          (c.vis.getD i false &&
            decide (d.hashMapping.getD
              (h (projectRow d.keys (c.rows.getD i [])) % vnodeCount) 0 = d.outputs.getD o 0)) := by
        rw [List.getD_eq_getElem?_getD, hashVisMap_getElem?,
          hashInfos_getElem? h d c i hops hvis hi, haeq]
        rfl
      by_cases hc : 0 < chunkCardinality (hashVisMap d.hashMapping (d.outputs[o]) (hashInfos h d c))
      · simp only [hc, if_pos]
        rw [← hvmi]
        rfl
      · simp only [hc, if_neg, not_false_iff]
        rw [← hvmi]
        have hilen : i < (hashVisMap d.hashMapping (d.outputs[o]) (hashInfos h d c)).length := by
          rw [hashVisMap_length, hlen]
          exact hi
        have hz : (hashVisMap d.hashMapping (d.outputs[o]) (hashInfos h d c)).count true = 0 := by
          have := Nat.eq_zero_of_not_pos hc
          simpa [chunkCardinality] using this
        have hnotmem := List.count_eq_zero.mp hz
        have hgetd : (hashVisMap d.hashMapping (d.outputs[o]) (hashInfos h d c)).getD i false =
            (hashVisMap d.hashMapping (d.outputs[o]) (hashInfos h d c))[i] := by
          rw [List.getD_eq_getElem?_getD, List.getElem?_eq_getElem hilen]
          rfl
        rw [hgetd]
        cases hb : (hashVisMap d.hashMapping (d.outputs[o]) (hashInfos h d c))[i] with
        | false => rfl
        | true =>
            exfalso
            exact hnotmem (hb ▸ List.getElem_mem hilen)

/-- Claim C1 witness at a concrete chunk and dispatcher. -/
theorem hash_visibility_correct_witness :
    sentVisAt (([some (StreamChunk.mk [Op.insert, Op.insert] [true, false] [[0], [1]]),
      some (StreamChunk.mk [Op.insert, Op.insert] [false, true] [[0], [1]])].getD 0 none)) 0 =
      (exChunk.vis.getD 0 false &&
        decide (exDisp.hashMapping.getD
          (exHash (projectRow exDisp.keys (exChunk.rows.getD 0 [])) % vnodeCount) 0
            = exDisp.outputs.getD 0 0)) :=
  hash_visibility_correct exHash exDisp exChunk 0 0 _
    (by decide) (by decide) (by decide) (by decide) (by decide)

theorem getD_append_right {α : Type} (l1 l2 : List α) (k : Nat) (d : α) :
    (l1 ++ l2).getD (l1.length + k) d = l2.getD k d := by
  rw [List.getD_eq_getElem?_getD, List.getElem?_append_right (Nat.le_add_right _ _),
    Nat.add_sub_cancel_left, ← List.getD_eq_getElem?_getD]

/-- Claim C2 counterexample: a visible update pair whose two rows have the
vnodes 0 and 1, both mapped to the same downstream actor 1. The claim says
that actor observes the pair unchanged as UpdateDelete/UpdateInsert, but the
loop compares vnodes, not actors, and actor 1 receives Delete/Insert. -/
theorem update_pair_same_actor_cex :
    hashDispatchData exHash exDispSame exChunkPair =
      some [some (StreamChunk.mk [Op.delete, Op.insert] [true, true] [[0], [1]])] ∧
    exDispSame.hashMapping.getD 0 0 = exDispSame.hashMapping.getD 1 0 :=
  ⟨by decide, by decide⟩

/-- Claim C2 (amended): the rewrite decision compares the vnodes of the two
rows of an update pair, not the actors they map to. A visible pair whose rows
share a vnode is observed as UpdateDelete/UpdateInsert; a visible pair whose
rows have different vnodes is rewritten to Delete/Insert (even when both
vnodes map to the same actor). Rows outside an update pair keep their op, and
every output receives the same rewritten op vector. -/
theorem update_pair_rewrite_by_vnode (h : List Value → Nat) (d : HashDataDispatcher)
    (c : StreamChunk) (st : RewriteState)
    (hrw : rewriteOps (hashInfos h d c) ⟨none, []⟩ = some st) :
    (∀ (pre post : List RowInfo) (r1 r2 : RowInfo),
        hashInfos h d c = pre ++ r1 :: r2 :: post → WFRows pre →
        r1.op = Op.updateDelete → r2.op = Op.updateInsert →
        r1.visible = true → r2.visible = true →
        st.newOps.getD pre.length Op.insert =
          (if r2.vnode = r1.vnode then Op.updateDelete else Op.delete) ∧
        st.newOps.getD (pre.length + 1) Op.insert =
          (if r2.vnode = r1.vnode then Op.updateInsert else Op.insert)) ∧
    (∀ (pre post : List RowInfo) (r : RowInfo),
        hashInfos h d c = pre ++ r :: post → WFRows pre →
        r.op ≠ Op.updateDelete → r.op ≠ Op.updateInsert →
        st.newOps.getD pre.length Op.insert = r.op) ∧
    (∀ outs, hashDispatchData h d c = some outs →
        ∀ oc ∈ outs, ∀ ch, oc = some ch → ch.ops = st.newOps) := by
  refine ⟨?_, ?_, ?_⟩
  · intro pre post r1 r2 hdec hwf h1 h2 hv1 hv2
    rw [hdec, rewriteOps_append] at hrw
    obtain ⟨v, hpre⟩ := rewriteOps_wf hwf ⟨none, []⟩
    simp only [List.nil_append] at hpre
    rw [hpre, Option.some_bind, rewriteOps_cons, rewriteStep_visible_ud hv1 h1,
      Option.some_bind, rewriteOps_cons, rewriteStep_visible_ui hv2 h2 rfl,
      Option.some_bind] at hrw
    obtain ⟨t, ht⟩ := rewriteOps_newOps hrw
    simp only at ht
    have hlenpre : (wfRewrite pre).length = pre.length := wfRewrite_length hwf
    by_cases hvn : r2.vnode = r1.vnode
    · simp only [hvn, ne_eq, not_true_eq_false, if_false, ite_false, if_pos] at ht ⊢
      rw [ht, List.append_assoc]
      constructor
      · have := getD_append_right (wfRewrite pre)
          ([Op.updateDelete, Op.updateInsert] ++ t) 0 Op.insert
        rw [hlenpre, Nat.add_zero] at this
        simpa using this
      · have := getD_append_right (wfRewrite pre)
          ([Op.updateDelete, Op.updateInsert] ++ t) 1 Op.insert
        rw [hlenpre] at this
        simpa using this
    · simp only [hvn, ne_eq, not_false_iff, if_true, ite_true, if_neg] at ht ⊢
      rw [ht, List.append_assoc]
      constructor
      · have := getD_append_right (wfRewrite pre) ([Op.delete, Op.insert] ++ t) 0 Op.insert
        rw [hlenpre, Nat.add_zero] at this
        simpa using this
      · have := getD_append_right (wfRewrite pre) ([Op.delete, Op.insert] ++ t) 1 Op.insert
        rw [hlenpre] at this
        simpa using this
  · intro pre post r hdec hwf h1 h2
    rw [hdec, rewriteOps_append] at hrw
    obtain ⟨v, hpre⟩ := rewriteOps_wf hwf ⟨none, []⟩
    simp only [List.nil_append] at hpre
    have hstep : rewriteStep ⟨v, wfRewrite pre⟩ r =
        some ⟨v, wfRewrite pre ++ [r.op]⟩ := by
      cases hvr : r.visible with
      | false => exact rewriteStep_invisible hvr
      | true => exact rewriteStep_visible_other hvr h1 h2
    rw [hpre, Option.some_bind, rewriteOps_cons, hstep, Option.some_bind] at hrw
    obtain ⟨t, ht⟩ := rewriteOps_newOps hrw
    simp only at ht
    have hlenpre : (wfRewrite pre).length = pre.length := wfRewrite_length hwf
    rw [ht, List.append_assoc]
    have := getD_append_right (wfRewrite pre) ([r.op] ++ t) 0 Op.insert
    rw [hlenpre, Nat.add_zero] at this
    simpa using this
  · intro outs hdd oc hmem ch hoc
    rw [hashDispatchData_eq h d c st hrw] at hdd
    injection hdd with hdd
    subst hdd
    obtain ⟨a, _, hfa⟩ := List.mem_map.mp hmem
    simp only at hfa
    by_cases hc : 0 < chunkCardinality (hashVisMap d.hashMapping a (hashInfos h d c))
    · rw [if_pos hc] at hfa
      rw [← hfa] at hoc
      injection hoc with hoc
      rw [← hoc]
    · rw [if_neg hc] at hfa
      rw [← hfa] at hoc
      cases hoc

/-- Claim C2 (amended) witness: the concrete pair with vnodes 0 and 1. -/
theorem update_pair_rewrite_by_vnode_witness :
    (RewriteState.mk (some 0) [Op.delete, Op.insert]).newOps.getD 0 Op.insert =
      (if (1 : Nat) = 0 then Op.updateDelete else Op.delete) :=
  ((update_pair_rewrite_by_vnode exHash exDispSame exChunkPair
      ⟨some 0, [Op.delete, Op.insert]⟩ (by decide)).1
    [] [] ⟨0, Op.updateDelete, true⟩ ⟨1, Op.updateInsert, true⟩
    (by decide) WFRows.nil rfl rfl rfl rfl).1

/-- Claim C3 counterexample: after processing an invisible UpdateDelete at
vnode 5 the recorded last vnode is still none, not some 5; consequently, in a
chunk whose second update pair has an invisible UpdateDelete, the visible
UpdateInsert compares against the first pair's vnode 0, splits the same-vnode
pair into Delete/Insert, and five ops are emitted for four rows. -/
theorem invisible_ud_not_tracked_cex :
    rewriteOps [⟨5, Op.updateDelete, false⟩] ⟨none, []⟩ =
      some ⟨none, [Op.updateDelete]⟩ ∧
    rewriteOps [⟨0, Op.updateDelete, true⟩, ⟨0, Op.updateInsert, true⟩,
        ⟨5, Op.updateDelete, false⟩, ⟨5, Op.updateInsert, true⟩] ⟨none, []⟩ =
      some ⟨some 0, [Op.updateDelete, Op.updateInsert, Op.updateDelete,
        Op.delete, Op.insert]⟩ :=
  ⟨by decide, by decide⟩

/-- Claim C3 (amended): invisible rows contribute no visibility to any output
and do not participate in op-rewrite accounting: an invisible row passes its
op through unchanged without touching the recorded last vnode, which is
updated only by a visible UpdateDelete. -/
theorem invisible_rows_pass_through (st : RewriteState) (r s : RowInfo)
    (mapping : List ActorId) (a : ActorId)
    (hr : r.visible = false) (hs : s.visible = true) (hud : s.op = Op.updateDelete) :
    rewriteStep st r = some ⟨st.lastVnode, st.newOps ++ [r.op]⟩ ∧
    (r.visible && decide (mapping.getD r.vnode 0 = a)) = false ∧
    rewriteStep st s = some ⟨some s.vnode, st.newOps⟩ :=
  ⟨rewriteStep_invisible hr, by rw [hr]; rfl, rewriteStep_visible_ud hs hud⟩

/-- Claim C3 (amended) witness at a concrete state and rows. -/
theorem invisible_rows_pass_through_witness :
    rewriteStep ⟨none, []⟩ ⟨5, Op.updateDelete, false⟩ = some ⟨none, [Op.updateDelete]⟩ :=
  (invisible_rows_pass_through ⟨none, []⟩ ⟨5, Op.updateDelete, false⟩
    ⟨3, Op.updateDelete, true⟩ [1] 1 rfl rfl rfl).1

/-- Claim C4: for every dispatcher variant (Hash, Broadcast, Simple,
RoundRobin, CdcTableName) and every barrier, dispatch_barrier sends exactly
one copy of the barrier to every output currently in the dispatcher's output
set, in output order, regardless of projection or partitioning state. -/
theorem barrier_broadcast_all_outputs (d : DispatcherImpl) (b : Barrier) :
    d.dispatchBarrierSends b = d.outputActors.map (fun a => (a, b)) ∧
    ∀ a : ActorId, (d.dispatchBarrierSends b).countP (fun s => decide (s = (a, b))) =
      d.outputActors.countP (fun x => decide (x = a)) := by
  have h1 : d.dispatchBarrierSends b = d.outputActors.map (fun x => (x, b)) := by
    cases d <;> rfl
  refine ⟨h1, ?_⟩
  intro a
  rw [h1, List.countP_map]
  congr 1
  funext x
  simp [Prod.ext_iff]

/-- Claim C6: after the dispatch executor finishes processing a barrier
(pre phase, barrier dispatch, post phase), no dispatcher with zero outputs
remains, provided none was present before the barrier (a barrier without
mutation leaves the dispatcher list untouched; any mutation ends with the
empty-dispatcher sweep). -/
theorem no_empty_dispatcher_after_barrier (s : DispatchExecutorInner) (b : Barrier)
    (s2 : DispatchExecutorInner) (sends : List (ActorId × Barrier))
    (hne : ∀ d ∈ s.dispatchers, d.isEmpty = false)
    (hp : processBarrier s b = some (s2, sends)) :
    ∀ d ∈ s2.dispatchers, d.isEmpty = false := by
  rw [processBarrier] at hp
  cases hpre : preMutateDispatchers s b.mutation with
  | none => rw [hpre] at hp; cases hp
  | some s1 =>
      rw [hpre] at hp
      simp only [Option.some_bind] at hp
      cases hmu : b.mutation with
      | none =>
          rw [hmu] at hp hpre
          simp only [postMutateDispatchers, Option.map_some] at hp
          simp only [preMutateDispatchers] at hpre
          injection hp with hp
          injection hpre with hpre
          have hs2 : s2 = s := by
            have := congrArg Prod.fst hp
            simp at this
            rw [← this, ← hpre]
          rw [hs2]
          exact hne
      | some mu =>
          rw [hmu] at hp
          rw [postMutateDispatchers] at hp
          rcases Option.map_eq_some'.mp hp with ⟨s4, hs4, hpair⟩
          rcases Option.map_eq_some'.mp hs4 with ⟨s5, _, hs4eq⟩
          have hs2 : s4 = s2 := congrArg Prod.fst hpair
          intro d hd
          rw [← hs2, ← hs4eq] at hd
          simp only at hd
          have := (List.mem_filter.mp hd).2
          simpa using this

/-- Claim C7: a Simple dispatcher's dispatch_data succeeds exactly when there
is one output (the exactly_one expect panics otherwise), dispatch_barrier
sends the barrier to each current output whatever their number, and
add_outputs asserts that the output count never exceeds 2. -/
theorem simple_dispatcher_output_discipline (d : SimpleDispatcher) (c : StreamChunk)
    (b : Barrier) (outs : List ActorId) (d2 : SimpleDispatcher)
    (hadd : simpleAddOutputs d outs = some d2) :
    ((simpleDispatchData d c).isSome ↔ d.output.length = 1) ∧
    simpleDispatchBarrier d b = d.output.map (fun a => (a, b)) ∧
    d2.output.length ≤ 2 := by
  refine ⟨?_, rfl, ?_⟩
  · rcases hd : d.output with _ | ⟨a, _ | ⟨a2, rest⟩⟩
    · simp [simpleDispatchData, hd]
    · simp [simpleDispatchData, hd]
    · simp [simpleDispatchData, hd]
  · rw [simpleAddOutputs] at hadd
    split at hadd
    · injection hadd with hadd
      rw [← hadd]
      assumption
    · cases hadd

/-- Claim C7 witness: adding a second output to a singleton Simple dispatcher. -/
theorem simple_dispatcher_output_discipline_witness :
    (SimpleDispatcher.mk [1, 5] [] 4).output.length ≤ 2 :=
  (simple_dispatcher_output_discipline ⟨[1], [], 4⟩ ⟨[], [], []⟩ ⟨0, none⟩ [5]
    ⟨[1, 5], [], 4⟩ (by decide)).2.2

theorem isEmpty_false_of_ne_nil {α : Type} {l : List α} (h : l ≠ []) : l.isEmpty = false := by
  cases l with
  | nil => exact absurd rfl h
  | cons x xs => rfl

/-- Claim C5: for a barrier carrying an Update with a new hash mapping for a
Hash dispatcher, the pre phase only adds the newly listed outputs and leaves
the hash mapping unchanged; the barrier is dispatched from that pre state
(old mapping, extended outputs), and the mapping is replaced, together with
the removal of outputs, only in the post phase. -/
theorem hash_mapping_replaced_only_post (hd : HashDataDispatcher) (a : ActorId)
    (u : PbDispatcherUpdate) (m2 : List ActorId) (b : Barrier)
    (hid : u.dispatcherId = hd.dispatcherId)
    (hm : u.hashMapping = some m2)
    (hb : b.mutation = some (Mutation.update [(a, [u])] [] []))
    (hnz : (hd.outputs ++ u.addedDownstreamActorId).filter
        (fun x => decide (x ∉ u.removedDownstreamActorId)) ≠ []) :
    preMutateDispatchers ⟨[DispatcherImpl.hash hd], a⟩ b.mutation =
      some ⟨[DispatcherImpl.hash
        { hd with outputs := hd.outputs ++ u.addedDownstreamActorId }], a⟩ ∧
    processBarrier ⟨[DispatcherImpl.hash hd], a⟩ b =
      some (⟨[DispatcherImpl.hash
          { hd with
            outputs := (hd.outputs ++ u.addedDownstreamActorId).filter
              (fun x => decide (x ∉ u.removedDownstreamActorId)),
            hashMapping := m2 }], a⟩,
        (hd.outputs ++ u.addedDownstreamActorId).map (fun x => (x, b))) := by
  have hpre : preMutateDispatchers ⟨[DispatcherImpl.hash hd], a⟩ b.mutation =
      some ⟨[DispatcherImpl.hash
        { hd with outputs := hd.outputs ++ u.addedDownstreamActorId }], a⟩ := by
    rw [hb]
    simp [preMutateDispatchers, lookupActor, applyAll, preUpdateDispatcher, updateFirst,
      DispatcherImpl.dispatcherId, hid, DispatcherImpl.addOutputs]
  have hnz2 := hnz
  simp only [decide_not, List.filter_append] at hnz2
  have hemp2 : (DispatcherImpl.hash
      { hd with
        outputs := hd.outputs.filter (fun x => !decide (x ∈ u.removedDownstreamActorId)) ++
          u.addedDownstreamActorId.filter (fun x => !decide (x ∈ u.removedDownstreamActorId)),
        hashMapping := m2 }).isEmpty = false := by
    simp only [DispatcherImpl.isEmpty]
    exact isEmpty_false_of_ne_nil hnz2
  have hpost : postMutateDispatchers
      ⟨[DispatcherImpl.hash { hd with outputs := hd.outputs ++ u.addedDownstreamActorId }], a⟩
      b.mutation =
      some ⟨[DispatcherImpl.hash
        { hd with
          outputs := (hd.outputs ++ u.addedDownstreamActorId).filter
            (fun x => decide (x ∉ u.removedDownstreamActorId)),
          hashMapping := m2 }], a⟩ := by
    rw [hb]
    simp [postMutateDispatchers, postMutateCore, lookupActor, applyAll, postUpdateDispatcher,
      updateFirst, DispatcherImpl.dispatcherId, hid, hm, DispatcherImpl.removeOutputs,
      hemp2]
  refine ⟨hpre, ?_⟩
  rw [processBarrier, hpre]
  simp only [Option.some_bind]
  rw [hpost]
  simp [DispatcherImpl.dispatchBarrierSends]

/-- Claim C5 witness at concrete values. -/
theorem hash_mapping_replaced_only_post_witness :
    preMutateDispatchers ⟨[DispatcherImpl.hash ⟨[1], [0], [0], [1], 3⟩], 9⟩
        (Barrier.mk 1 (some (Mutation.update [(9, [⟨3, [2], [1], some [2]⟩])] [] []))).mutation =
      some ⟨[DispatcherImpl.hash ⟨[1, 2], [0], [0], [1], 3⟩], 9⟩ ∧
    processBarrier ⟨[DispatcherImpl.hash ⟨[1], [0], [0], [1], 3⟩], 9⟩
        (Barrier.mk 1 (some (Mutation.update [(9, [⟨3, [2], [1], some [2]⟩])] [] []))) =
      some (⟨[DispatcherImpl.hash ⟨[2], [0], [0], [2], 3⟩], 9⟩,
        [(1, Barrier.mk 1 (some (Mutation.update [(9, [⟨3, [2], [1], some [2]⟩])] [] []))),
         (2, Barrier.mk 1 (some (Mutation.update [(9, [⟨3, [2], [1], some [2]⟩])] [] [])))]) :=
  hash_mapping_replaced_only_post ⟨[1], [0], [0], [1], 3⟩ 9 ⟨3, [2], [1], some [2]⟩ [2]
    (Barrier.mk 1 (some (Mutation.update [(9, [⟨3, [2], [1], some [2]⟩])] [] [])))
    rfl rfl rfl (by decide)

/-- Claim C6 witness: a barrier without mutation on a one-dispatcher actor. -/
theorem no_empty_dispatcher_after_barrier_witness :
    (DispatcherImpl.broadcast ⟨[1], [], 7⟩).isEmpty = false :=
  no_empty_dispatcher_after_barrier ⟨[DispatcherImpl.broadcast ⟨[1], [], 7⟩], 10⟩ ⟨1, none⟩
    ⟨[DispatcherImpl.broadcast ⟨[1], [], 7⟩], 10⟩ [(1, ⟨1, none⟩)] (by decide) (by decide)
    (DispatcherImpl.broadcast ⟨[1], [], 7⟩) (by decide)

/-! Helpers about dispatcher construction and output removal. -/

theorem new_dispatcherId {a : ActorId} {pb : PbDispatcher} {d : DispatcherImpl}
    (h : DispatcherImpl.new a pb = some d) : d.dispatcherId = pb.dispatcherId := by
  unfold DispatcherImpl.new at h
  repeat' split at h
  all_goals first
    | (injection h with h; subst h; rfl)
    | cases h

theorem mem_foldl_broadcastInsert (l : List ActorId) (init : List ActorId) (x : ActorId)
    (h : x ∈ l.foldl broadcastInsert init) : x ∈ init ∨ x ∈ l := by
  induction l generalizing init with
  | nil => exact Or.inl h
  | cons a rest ih =>
      simp only [List.foldl_cons] at h
      rcases ih (broadcastInsert init a) h with hi | hr
      · unfold broadcastInsert at hi
        split at hi
        · exact Or.inl hi
        · rcases List.mem_append.mp hi with hii | hia
          · exact Or.inl hii
          · rw [List.mem_singleton] at hia
            exact Or.inr (hia ▸ List.mem_cons_self a rest)
      · exact Or.inr (List.mem_cons_of_mem a hr)

theorem new_outputs_subset {a : ActorId} {pb : PbDispatcher} {d : DispatcherImpl}
    (h : DispatcherImpl.new a pb = some d) :
    ∀ x ∈ d.outputActors, x ∈ pb.downstreamActorId := by
  unfold DispatcherImpl.new at h
  repeat' split at h
  all_goals first
    | (injection h with h; subst h; intro x hx;
        simp only [DispatcherImpl.outputActors] at hx;
        first
          | exact hx
          | (cases mem_foldl_broadcastInsert pb.downstreamActorId [] x hx with
              | inl hi => cases hi
              | inr hr => exact hr))
    | cases h

theorem removeOutputs_id {d : DispatcherImpl} {ids : List ActorId}
    (hwf : DispatcherWF d) (hdisj : ∀ x ∈ d.outputActors, x ∉ ids) :
    d.removeOutputs ids = d := by
  have hfil : ∀ (l : List ActorId), (∀ x ∈ l, x ∉ ids) →
      l.filter (fun x => !decide (x ∈ ids)) = l :=
    fun l hl => List.filter_eq_self.mpr (fun x hx => by simp [hl x hx])
  cases d with
  | hash dd =>
      simp only [DispatcherImpl.outputActors] at hdisj
      simp [DispatcherImpl.removeOutputs, hfil dd.outputs hdisj]
  | broadcast dd =>
      simp only [DispatcherImpl.outputActors] at hdisj
      simp [DispatcherImpl.removeOutputs, hfil dd.outputs hdisj]
  | simple dd =>
      simp only [DispatcherImpl.outputActors] at hdisj
      simp [DispatcherImpl.removeOutputs, hfil dd.output hdisj]
  | roundRobin dd =>
      simp only [DispatcherImpl.outputActors] at hdisj
      simp only [DispatcherWF] at hwf
      have hc : min dd.cur (dd.outputs.length - 1) = dd.cur :=
        Nat.min_eq_left (Nat.le_sub_one_of_lt hwf)
      simp [DispatcherImpl.removeOutputs, decide_not, hfil dd.outputs hdisj, hc]
  | cdcTableName dd =>
      simp only [DispatcherImpl.outputActors] at hdisj
      simp [DispatcherImpl.removeOutputs, hfil dd.outputs hdisj]

theorem removeOutputs_isEmpty {d : DispatcherImpl} {ids : List ActorId}
    (hall : ∀ x ∈ d.outputActors, x ∈ ids) : (d.removeOutputs ids).isEmpty = true := by
  have hfil : ∀ (l : List ActorId), (∀ x ∈ l, x ∈ ids) →
      l.filter (fun x => !decide (x ∈ ids)) = [] := by
    intro l hl
    apply List.filter_eq_nil_iff.mpr
    intro x hx
    simp [hl x hx]
  cases d with
  | hash dd =>
      simp only [DispatcherImpl.outputActors] at hall
      simp [DispatcherImpl.removeOutputs, DispatcherImpl.isEmpty, hfil dd.outputs hall]
  | broadcast dd =>
      simp only [DispatcherImpl.outputActors] at hall
      simp [DispatcherImpl.removeOutputs, DispatcherImpl.isEmpty, hfil dd.outputs hall]
  | simple dd =>
      simp only [DispatcherImpl.outputActors] at hall
      simp [DispatcherImpl.removeOutputs, DispatcherImpl.isEmpty, hfil dd.output hall]
  | roundRobin dd =>
      simp only [DispatcherImpl.outputActors] at hall
      simp [DispatcherImpl.removeOutputs, DispatcherImpl.isEmpty, hfil dd.outputs hall]
  | cdcTableName dd =>
      simp only [DispatcherImpl.outputActors] at hall
      simp [DispatcherImpl.removeOutputs, DispatcherImpl.isEmpty, hfil dd.outputs hall]

theorem map_id_of_forall {α : Type} (l : List α) (f : α → α) (h : ∀ x ∈ l, f x = x) :
    l.map f = l := by
  induction l with
  | nil => rfl
  | cons x xs ih =>
      rw [List.map_cons, h x (List.mem_cons_self x xs),
        ih (fun y hy => h y (List.mem_cons_of_mem x hy))]

/-- Claim C8: a barrier whose Add introduces a dispatcher with downstream
actor set A, followed by a barrier whose Stop names exactly the actors in A,
leaves the dispatcher list identical to the starting configuration: the added
dispatcher loses all of its outputs and is swept, while pre-existing
dispatchers (whose outputs are disjoint from A, with A not containing this
actor itself) are untouched. -/
theorem add_then_stop_roundtrip (ds : List DispatcherImpl) (self : ActorId)
    (pb : PbDispatcher) (dnew : DispatcherImpl) (b1 b2 : Barrier)
    (hne : ∀ d ∈ ds, d.isEmpty = false)
    (hwf : ∀ d ∈ ds, DispatcherWF d)
    (hids : (ds.map DispatcherImpl.dispatcherId).Nodup)
    (hid : pb.dispatcherId ∉ ds.map DispatcherImpl.dispatcherId)
    (hnew : DispatcherImpl.new self pb = some dnew)
    (hdne : dnew.isEmpty = false)
    (hself : self ∉ pb.downstreamActorId)
    (hdisj : ∀ d ∈ ds, ∀ x ∈ d.outputActors, x ∉ pb.downstreamActorId)
    (hb1 : b1.mutation = some (Mutation.add [(self, [pb])]))
    (hb2 : b2.mutation = some (Mutation.stop pb.downstreamActorId)) :
    processBarrier ⟨ds, self⟩ b1 =
      some (⟨ds ++ [dnew], self⟩,
        ((ds ++ [dnew]).map (fun d => d.dispatchBarrierSends b1)).flatten) ∧
    processBarrier ⟨ds ++ [dnew], self⟩ b2 =
      some (⟨ds, self⟩,
        ((ds ++ [dnew]).map (fun d => d.dispatchBarrierSends b2)).flatten) := by
  have hnd : ((ds ++ [dnew]).map DispatcherImpl.dispatcherId).Nodup := by
    rw [List.map_append, List.nodup_append]
    refine ⟨hids, List.nodup_singleton _, ?_⟩
    intro x hx
    simp only [List.map_cons, List.map_nil, List.mem_singleton]
    intro hx2
    rw [hx2, new_dispatcherId hnew] at hx
    exact hid hx
  have hpre1 : preMutateDispatchers ⟨ds, self⟩ b1.mutation = some ⟨ds ++ [dnew], self⟩ := by
    rw [hb1]
    simp only [preMutateDispatchers]
    rw [show lookupActor [(self, [pb])] self = some [pb] from by simp [lookupActor]]
    simp [addDispatchers, newAll, hnew]
    simpa using hnd
  have hfeq1 : (ds ++ [dnew]).filter (fun d => !d.isEmpty) = ds ++ [dnew] := by
    apply List.filter_eq_self.mpr
    intro d hd
    rcases List.mem_append.mp hd with hmem | hmem
    · simp [hne d hmem]
    · rw [List.mem_singleton] at hmem
      subst hmem
      simp [hdne]
  have hpost1 : postMutateDispatchers ⟨ds ++ [dnew], self⟩ b1.mutation =
      some ⟨ds ++ [dnew], self⟩ := by
    rw [hb1]
    simp [postMutateDispatchers, postMutateCore, hfeq1]
  have hrm : (ds ++ [dnew]).map (fun d => d.removeOutputs pb.downstreamActorId) =
      ds ++ [dnew.removeOutputs pb.downstreamActorId] := by
    rw [List.map_append]
    congr 1
    exact map_id_of_forall ds _ (fun d hd => removeOutputs_id (hwf d hd) (hdisj d hd))
  have hpre2 : preMutateDispatchers ⟨ds ++ [dnew], self⟩ b2.mutation =
      some ⟨ds ++ [dnew], self⟩ := by
    rw [hb2]
    rfl
  have hempty : (dnew.removeOutputs pb.downstreamActorId).isEmpty = true :=
    removeOutputs_isEmpty (new_outputs_subset hnew)
  have hmapds : ds.map (fun d => d.removeOutputs pb.downstreamActorId) = ds :=
    map_id_of_forall ds _ (fun d hd => removeOutputs_id (hwf d hd) (hdisj d hd))
  have hfds : ds.filter (fun d => !d.isEmpty) = ds :=
    List.filter_eq_self.mpr (fun d hd => by simp [hne d hd])
  have hpost2 : postMutateDispatchers ⟨ds ++ [dnew], self⟩ b2.mutation =
      some ⟨ds, self⟩ := by
    rw [hb2]
    simp only [postMutateDispatchers, postMutateCore]
    rw [if_neg hself]
    simp [hmapds, hfds, hempty]
  constructor
  · rw [processBarrier, hpre1]
    simp only [Option.some_bind]
    rw [hpost1]
    rfl
  · rw [processBarrier, hpre2]
    simp only [Option.some_bind]
    rw [hpost2]
    rfl

/-- Claim C8 witness: a broadcast dispatcher to actor 1, an Add of a new
broadcast dispatcher to actor 2, then a Stop of actor 2. -/
theorem add_then_stop_roundtrip_witness :
    processBarrier ⟨[DispatcherImpl.broadcast ⟨[1], [], 7⟩], 10⟩
        ⟨1, some (Mutation.add [(10, [⟨DispatcherType.broadcast, 9, [2], [], [], none, none⟩])])⟩ =
      some (⟨[DispatcherImpl.broadcast ⟨[1], [], 7⟩, DispatcherImpl.broadcast ⟨[2], [], 9⟩], 10⟩,
        (([DispatcherImpl.broadcast ⟨[1], [], 7⟩, DispatcherImpl.broadcast ⟨[2], [], 9⟩]).map
          (fun d => d.dispatchBarrierSends
            ⟨1, some (Mutation.add
              [(10, [⟨DispatcherType.broadcast, 9, [2], [], [], none, none⟩])])⟩)).flatten) ∧
    processBarrier ⟨[DispatcherImpl.broadcast ⟨[1], [], 7⟩, DispatcherImpl.broadcast ⟨[2], [], 9⟩], 10⟩
        ⟨2, some (Mutation.stop [2])⟩ =
      some (⟨[DispatcherImpl.broadcast ⟨[1], [], 7⟩], 10⟩,
        (([DispatcherImpl.broadcast ⟨[1], [], 7⟩, DispatcherImpl.broadcast ⟨[2], [], 9⟩]).map
          (fun d => d.dispatchBarrierSends ⟨2, some (Mutation.stop [2])⟩)).flatten) :=
  add_then_stop_roundtrip [DispatcherImpl.broadcast ⟨[1], [], 7⟩] 10
    ⟨DispatcherType.broadcast, 9, [2], [], [], none, none⟩
    (DispatcherImpl.broadcast ⟨[2], [], 9⟩)
    ⟨1, some (Mutation.add [(10, [⟨DispatcherType.broadcast, 9, [2], [], [], none, none⟩])])⟩
    ⟨2, some (Mutation.stop [2])⟩
    (by decide)
    (by intro d hd; rw [List.mem_singleton] at hd; subst hd; trivial)
    (by decide) (by decide) (by decide) (by decide) (by decide) (by decide) rfl rfl

/-- Claim C10: when a Stop mutation contains this actor's own id, or an
Update mutation's dropped_actors contains it, the post phase skips the
removal step for that set entirely: no outputs are removed from any of this
actor's dispatchers on account of that set, even when some of its downstream
actor ids are listed in it (only the empty-dispatcher sweep still runs, a
no-op on a state without empty dispatchers). -/
theorem self_stop_skips_removal (ds : List DispatcherImpl) (self : ActorId)
    (stops dropped : List ActorId) (ups : List (ActorId × List PbDispatcherUpdate))
    (nds : List (ActorId × List PbDispatcher))
    (hne : ∀ d ∈ ds, d.isEmpty = false)
    (h1 : self ∈ stops) (h2 : self ∈ dropped) (h3 : lookupActor ups self = none) :
    postMutateDispatchers ⟨ds, self⟩ (some (Mutation.stop stops)) = some ⟨ds, self⟩ ∧
    postMutateDispatchers ⟨ds, self⟩ (some (Mutation.update ups dropped nds)) =
      some ⟨ds, self⟩ := by
  have hfds : ds.filter (fun d => !d.isEmpty) = ds :=
    List.filter_eq_self.mpr (fun d hd => by simp [hne d hd])
  constructor
  · simp [postMutateDispatchers, postMutateCore, h1, hfds]
  · simp [postMutateDispatchers, postMutateCore, h3, h2, hfds]

/-- Claim C10 witness: the actor's own id 10 is in the stopped/dropped set
together with its downstream actor 2, and the dispatcher keeps output 2. -/
theorem self_stop_skips_removal_witness :
    postMutateDispatchers ⟨[DispatcherImpl.broadcast ⟨[2], [], 5⟩], 10⟩
        (some (Mutation.stop [10, 2])) =
      some ⟨[DispatcherImpl.broadcast ⟨[2], [], 5⟩], 10⟩ ∧
    postMutateDispatchers ⟨[DispatcherImpl.broadcast ⟨[2], [], 5⟩], 10⟩
        (some (Mutation.update [] [10, 2] [])) =
      some ⟨[DispatcherImpl.broadcast ⟨[2], [], 5⟩], 10⟩ :=
  self_stop_skips_removal [DispatcherImpl.broadcast ⟨[2], [], 5⟩] 10 [10, 2] [10, 2] [] []
    (by decide) (by decide) (by decide) rfl

/-- Claim C9 counterexample: a single Count call has a single-value state,
and with a non-append-only upstream the code still permits stateless local
aggregation, against the claim that the upstream must be append-only. -/
theorem stateless_local_agg_cex :
    allLocalAggsAreStateless ⟨[⟨AggKind.count⟩]⟩ false = true ∧
    singleValueState AggKind.count = true :=
  ⟨by decide, by decide⟩

/-- Claim C9 (amended): stateless local aggregation is permitted iff every
call either has a single-value state (with no condition on the upstream), or
is single-value-state-iff-append-only while the upstream is append-only; in
particular a plan whose calls all have single-value states is permitted even
on a non-append-only upstream. -/
theorem stateless_local_agg_characterization (a : Agg) (ao : Bool) :
    (allLocalAggsAreStateless a ao = true ↔
      ∀ c ∈ a.aggCalls, singleValueState c.aggKind = true ∨
        (singleValueStateIffInAppendOnly c.aggKind = true ∧ ao = true)) ∧
    ((∀ c ∈ a.aggCalls, singleValueState c.aggKind = true) →
      allLocalAggsAreStateless a ao = true) := by
  constructor
  · simp [allLocalAggsAreStateless, List.all_eq_true]
  · intro h
    simp only [allLocalAggsAreStateless, List.all_eq_true]
    intro c hc
    simp [h c hc]

/-- Claim C9 (amended) witness: a single Sum call on a non-append-only
upstream. -/
theorem stateless_local_agg_characterization_witness :
    allLocalAggsAreStateless ⟨[⟨AggKind.sum⟩]⟩ false = true :=
  (stateless_local_agg_characterization ⟨[⟨AggKind.sum⟩]⟩ false).2 (by decide)

end RW
